import Mathlib

/-!
Shallow embedding of `src/backpack_liquidation_bot.py` (v12.6).

Embedded here: the `BackpackTrader` order-placement retry loop
(`execute_full_margin_order`), the `SubAccount` operations
(`open_position`, `has_position`, `close_position`, `sweep`), the
market-metadata cache of `BackpackTrader.get_market_info`, the monitoring
loop of `worker_pair`, and one full cycle of `worker_pair`.

Modelling conventions: every remote call's outcome is fixed by an
environment argument (a field or a stream of results), machine floats are
modelled by rationals, a raised-and-caught exception is modelled by the
`Bool`/`Option`/constructor outcome the handler observes, and
`random.uniform(a, b)` is modelled as `a + (b - a) * u` (CPython's
implementation) with the sample `u` supplied by the environment.
Sleeping is modelled by recording the slept duration.
-/

-- Batteries marks the rational field operations irreducible, which only
-- hides their definitional behaviour from elaboration; restore the
-- default so concrete traces evaluate.
attribute [local semireducible] Rat.mul Rat.add Rat.sub Rat.inv

/-- CPython `random.uniform(a, b)`, that is `a + (b - a) * random()`,
with the unit sample `u` supplied by the environment. -/
def uniform (a b u : ℚ) : ℚ := a + (b - a) * u

/-- Python `round(q, n)` and the format `f"{q:.nf}"`: rounding to `n`
decimal places.  (Python rounds exact ties half-to-even on binary
floats; `round` here rounds half up — they differ only at exact decimal
ties at the n-th place, which no claim exercises.) -/
def pyRound (q : ℚ) (n : ℕ) : ℚ := ((round (q * 10 ^ n) : ℤ) : ℚ) / 10 ^ n

/-- Environment for one attempt (one iteration of the `for attempt`
loop) of `BackpackTrader.execute_full_margin_order`:

* `margin1`  — `get_available_margin()` read before the quote-sized order;
* `quoteOk`  — outcome of `auth.execute_order(quoteQuantity=...)`
  (`false` models a raised exception);
* `lastPrice` — `float(get_market_info(symbol)["lastPrice"])` (the cache
  behaviour of `get_market_info` itself is modelled separately);
* `tickerPrice` — `get_ticker_price(symbol)`, used when `lastPrice ≤ 0`;
* `step`     — `float(get_market_info(symbol)["baseIncrement"])`;
* `margin2`  — `get_available_margin()` read before the quantity-sized order;
* `qtyOk`    — outcome of `auth.execute_order(quantity=...)`;
* `u`        — unit sample for this attempt's inter-attempt delay. -/
structure AttemptEnv where
  margin1 : ℚ
  quoteOk : Bool
  lastPrice : ℚ
  tickerPrice : ℚ
  step : ℚ
  margin2 : ℚ
  qtyOk : Bool
  u : ℚ

/-- Trace of one `execute_full_margin_order` call: its boolean result,
the sizes passed to `auth.execute_order` in call order, and the
inter-attempt delays slept in order. -/
structure Trace where
  ok : Bool
  orders : List ℚ
  delays : List ℚ
deriving DecidableEq

/-- Loop body of `execute_full_margin_order` (lines 168-259): `rem` is
the number of attempts still available including the current one, `i`
the current attempt index. -/
def efmoGo (lev minD maxD : ℚ) (envs : ℕ → AttemptEnv) : ℕ → ℕ → Trace
  | 0, _ => ⟨false, [], []⟩
  | rem + 1, i =>
    let e := envs i
    let margin := e.margin1 * lev
    if margin ≤ 0 then ⟨false, [], []⟩
    else
      let quoteQty := pyRound margin 4
      if e.quoteOk then ⟨true, [quoteQty], []⟩
      else
        let price := if e.lastPrice ≤ 0 then e.tickerPrice else e.lastPrice
        if price ≤ 0 then
          let t := efmoGo lev minD maxD envs rem (i + 1)
          -- delay only when this is not the last attempt (`attempt < retry_attempts - 1`)
          let ds := if 0 < rem then uniform minD maxD e.u :: t.delays else t.delays
          ⟨t.ok, quoteQty :: t.orders, ds⟩
        else
          let margin2 := e.margin2 * lev
          if margin2 ≤ 0 then ⟨false, [quoteQty], []⟩
          else
            let qty0 := ((⌊margin2 / price / e.step⌋ : ℤ) : ℚ) * e.step
            let qty := if qty0 < 1 / 100 then 1 / 100 else qty0
            if e.qtyOk then ⟨true, [quoteQty, qty], []⟩
            else
              let t := efmoGo lev minD maxD envs rem (i + 1)
              let ds := if 0 < rem then uniform minD maxD e.u :: t.delays else t.delays
              ⟨t.ok, quoteQty :: qty :: t.orders, ds⟩

/-- `BackpackTrader.execute_full_margin_order`: up to `n` attempts, each
placing a quote-sized market order and, on its failure, a quantity-sized
fallback order, with a randomized delay in `[minD, maxD]` before the next
attempt (only between attempts, and only on the paths the source delays
on).  Returns `false` when the loop ends without a successful order. -/
def efmo (lev : ℚ) (n : ℕ) (minD maxD : ℚ) (envs : ℕ → AttemptEnv) : Trace :=
  efmoGo lev minD maxD envs n 0

/-- Environment for `SubAccount.open_position`: per-outer-attempt
environments for the inner `execute_full_margin_order` call, and unit
samples for the outer retry delays. -/
structure OpenEnv where
  inner : ℕ → ℕ → AttemptEnv
  uouter : ℕ → ℚ

/-- Trace of one `open_position` call: its boolean result, the
`execute_full_margin_order` traces of the attempts made in order, and
all delays slept (inner and outer) in order. -/
structure OpenTrace where
  ok : Bool
  attempts : List Trace
  delays : List ℚ
deriving DecidableEq

/-- Loop body of `SubAccount.open_position` (lines 291-322). -/
def openGo (lev : ℚ) (n : ℕ) (minD maxD : ℚ) (env : OpenEnv) : ℕ → ℕ → OpenTrace
  | 0, _ => ⟨false, [], []⟩
  | rem + 1, i =>
    let t := efmo lev n minD maxD (env.inner i)
    if t.ok then ⟨true, [t], t.delays⟩
    else
      let r := openGo lev n minD maxD env rem (i + 1)
      -- delay only when this is not the last attempt (`attempt < self.retry_attempts - 1`)
      let ds := if 0 < rem then uniform minD maxD (env.uouter i) :: r.delays else r.delays
      ⟨r.ok, t :: r.attempts, t.delays ++ ds⟩

/-- `SubAccount.open_position`: up to `n = self.retry_attempts` calls to
`execute_full_margin_order` (passing it the same `retry_attempts`,
`min_delay`, `max_delay`), with a randomized delay between consecutive
calls.  The source's `is_long` selects only the side string "Bid"/"Ask",
which does not affect the trace.  Total by construction: every remote
failure is absorbed into the boolean result, as the source catches every
exception inside the loop. -/
def open_position (lev : ℚ) (n : ℕ) (minD maxD : ℚ) (env : OpenEnv) : OpenTrace :=
  openGo lev n minD maxD env n 0

/-- Number of `auth.execute_order` calls recorded in an `open_position`
trace. -/
def totalOrders (t : OpenTrace) : ℕ := (t.attempts.map (fun a => a.orders.length)).sum

/-- Monitoring loop of `worker_pair` (lines 600-631).  `sOp`/`lOp` are
`short_position_opened`/`long_position_opened`; `obs i` is the pair of
`has_position` results of poll `i`; `ci` is `check_interval` and `maxT`
is `max_monitoring_time`.  Elapsed time is idealized as
`pollsMade × ci` (each continue-iteration sleeps `check_interval`, polls
are instantaneous).  Returns `some (liquidation_detected, pollsMade)`,
or `none` if the `fuel` bound is reached first. -/
def monitorGo (sOp lOp : Bool) (obs : ℕ → Bool × Bool) (ci maxT : ℚ) : ℕ → ℕ → Option (Bool × ℕ)
  | 0, _ => none
  | fuel + 1, i =>
    if maxT ≤ (i : ℚ) * ci then some (false, i)
    else
      let s := (obs i).1
      let l := (obs i).2
      if sOp = true ∧ s = false then some (true, i + 1)
      else if lOp = true ∧ l = false then some (true, i + 1)
      else if s = true ∧ l = true then monitorGo sOp lOp obs ci maxT fuel (i + 1)
      else some (true, i + 1)

/-- The monitoring loop started at elapsed time 0 (poll index 0). -/
def monitorLoop (sOp lOp : Bool) (obs : ℕ → Bool × Bool) (ci maxT : ℚ) (fuel : ℕ) :
    Option (Bool × ℕ) :=
  monitorGo sOp lOp obs ci maxT fuel 0

/-- Outcome of one `auth.request_withdrawal` call inside
`SubAccount.sweep`: success, an exception whose text contains
"Insufficient collateral", or any other exception. -/
inductive WRes
  | ok
  | insufficient
  | err
deriving DecidableEq

/-- Result of `SubAccount.sweep`: its boolean result and the withdrawal
amounts requested (the 6-decimal formatted quantities), in call order. -/
structure SweepRes where
  ok : Bool
  requests : List ℚ
deriving DecidableEq

/-- Loop body of `SubAccount.sweep` (lines 451-486): `a` is the number
of outer attempts left, `qty` the current (unformatted) amount, `j` the
index of the next withdrawal call in the outcome stream `w`.  On an
"Insufficient collateral" failure the amount is halved and retried at
once, giving up when the halved amount falls below 0.1; the halved
amount persists into the next outer attempt. -/
def sweepLoop (w : ℕ → WRes) : ℕ → ℚ → ℕ → SweepRes
  | 0, _, _ => ⟨false, []⟩
  | a + 1, qty, j =>
    match w j with
    | .ok => ⟨true, [pyRound qty 6]⟩
    | .err =>
      let r := sweepLoop w a qty (j + 1)
      ⟨r.ok, pyRound qty 6 :: r.requests⟩
    | .insufficient =>
      let qty2 := qty * (1 / 2)
      if qty2 < 1 / 10 then ⟨false, [pyRound qty 6]⟩
      else
        match w (j + 1) with
        | .ok => ⟨true, [pyRound qty 6, pyRound qty2 6]⟩
        | _ =>
          let r := sweepLoop w a qty2 (j + 2)
          ⟨r.ok, pyRound qty 6 :: pyRound qty2 6 :: r.requests⟩

/-- `SubAccount.sweep` (lines 440-486): success without any withdrawal
when the balance read at entry is at most the 0.1 dust threshold;
otherwise up to 3 withdrawal attempts of the rounded balance with the
halving recovery above. -/
def sweep (balance : ℚ) (w : ℕ → WRes) : SweepRes :=
  if balance ≤ 1 / 10 then ⟨true, []⟩
  else sweepLoop w 3 (pyRound balance 6) 0

/-- One position as consumed by the source: only the `symbol` and
`netQuantity` fields drive control flow.  `netQuantity = none` models a
missing key (the source then uses the default "0"). -/
structure Pos where
  symbol : String
  netQuantity : Option String
deriving DecidableEq

/-- Python `s.replace(a, b)` specialized to the single-character
patterns the source uses (`"_" ↦ "-"` and `"-" ↦ "_"`). -/
def replaceChar (s : String) (a b : Char) : String :=
  String.mk (s.data.map (fun c => if c = a then b else c))

/-- The `symbol_variants` list of `SubAccount.has_position`
(lines 346-350). -/
def symbolVariants (symbol : String) : List String :=
  [symbol, replaceChar symbol '_' '-', replaceChar symbol '-' '_']

/-- `SubAccount.has_position` (lines 324-388): `q = none` models a
failed positions query (caught and treated as "no position"); otherwise
true iff some returned position's symbol is one of the accepted
separator variants.  The per-position logging does not affect the
result. -/
def has_position (q : Option (List Pos)) (symbol : String) : Bool :=
  match q with
  | none => false
  | some ps => ps.any (fun p => (symbolVariants symbol).contains p.symbol)

/-- Value of a decimal digit character. -/
def digitVal? (c : Char) : Option ℕ :=
  if c.isDigit then some (c.toNat - 48) else none

/-- Digits-to-number fold; `none` as soon as a non-digit appears
(the empty list yields `some 0`, callers guard emptiness). -/
def digitsToNat? (cs : List Char) : Option ℕ :=
  cs.foldl (fun acc c => acc.bind (fun a => (digitVal? c).map (fun d => a * 10 + d))) (some 0)

/-- Python `float(s)` restricted to plain signed decimal literals (the
forms the exchange API produces for sizes); `none` models a raised
`ValueError`. -/
def ratOfString? (s : String) : Option ℚ :=
  let cs := s.data
  let sgn : ℚ := match cs with
    | '-' :: _ => -1
    | _ => 1
  let cs1 := match cs with
    | '-' :: t => t
    | '+' :: t => t
    | _ => cs
  let ip := cs1.takeWhile (fun c => c != '.')
  match cs1.dropWhile (fun c => c != '.') with
  | [] =>
    if ip = [] then none
    else (digitsToNat? ip).map (fun m => sgn * (m : ℚ))
  | _ :: fp =>
    if ip = [] ∧ fp = [] then none
    else
      (digitsToNat? ip).bind (fun m =>
        (digitsToNat? fp).map (fun f =>
          sgn * ((m : ℚ) + (f : ℚ) / (10 : ℚ) ^ fp.length)))

/-- One `auth.execute_order` request issued by `close_position`:
the side string, the reduce-only flag and the quantity (as the rational
value of the formatted string). -/
structure Order where
  side : String
  reduceOnly : Bool
  qty : ℚ
deriving DecidableEq

/-- Result of `SubAccount.close_position`: its boolean result, the
orders requested in call order (including failed requests), and the
number of position queries consumed from the query stream. -/
structure CloseRes where
  ok : Bool
  orders : List Order
  qUsed : ℕ
deriving DecidableEq

/-- The `for pos in positions` loop of `close_position`
(lines 402-419): only positions whose symbol equals `symbol` exactly
are considered; a truthy `netQuantity` (any non-empty string) that
parses is submitted as `abs(float(size))`; an unparseable size raises
inside the `try` and the loop continues; a failed order request is
logged and the loop continues.  Returns (success, orders issued, next
order-outcome index). -/
def closeLoop (side symbol : String) (orderOk : ℕ → Bool) :
    List Pos → ℕ → Bool × List Order × ℕ
  | [], j => (false, [], j)
  | p :: ps, j =>
    if p.symbol = symbol then
      let sizeStr := p.netQuantity.getD "0"
      if sizeStr = "" then closeLoop side symbol orderOk ps j
      else
        match ratOfString? sizeStr with
        | none => closeLoop side symbol orderOk ps j
        | some v =>
          let o : Order := ⟨side, true, |v|⟩
          if orderOk j then (true, [o], j + 1)
          else
            let r := closeLoop side symbol orderOk ps (j + 1)
            (r.1, o :: r.2.1, r.2.2)
    else closeLoop side symbol orderOk ps j

/-- `SubAccount.close_position` (lines 390-438): no-op success when
`has_position` (on query `q k`) is false; otherwise re-query positions
(`q (k+1)`; `none` models a raised query, caught at line 420), run the
sizing loop, and — when no sized order succeeded — place the fixed-size
fallback reduce-only order with quantity 3.58. -/
def close_position (isLong : Bool) (symbol : String) (q : ℕ → Option (List Pos))
    (k : ℕ) (orderOk : ℕ → Bool) : CloseRes :=
  if has_position (q k) symbol = false then ⟨true, [], 1⟩
  else
    let side := if isLong then "Ask" else "Bid"
    let r :=
      match q (k + 1) with
      | none => (false, ([] : List Order), 0)
      | some ps => closeLoop side symbol orderOk ps 0
    if r.1 then ⟨true, r.2.1, 2⟩
    else
      let fo : Order := ⟨side, true, 358 / 100⟩
      ⟨orderOk r.2.2, r.2.1 ++ [fo], 2⟩

/-- A market-metadata cache entry as `get_market_info` returns and
stores it: the fields the rest of the source consumes.  `lastPrice`
holds the rational value of the stored price string (the literal string
"0" is modelled as the value 0). -/
structure MarketEntry where
  symbol : String
  lastPrice : ℚ
  baseIncrement : ℚ
deriving DecidableEq

/-- A market object as returned by the venue's markets endpoints:
`lastPrice = none` models a missing key, `stepSize` is
`filters.quantity.stepSize` (`none` = missing, defaulted to 0.01). -/
structure RawMarket where
  symbol : String
  lastPrice : Option ℚ
  stepSize : Option ℚ
deriving DecidableEq

/-- Combined outcome of the markets queries of `get_market_info`:
an exception escaped them (`raised`, handled at line 153), the queries
returned but no market matched (`notFound`, line 143), or a market was
found. -/
inductive Fetch
  | raised
  | notFound
  | found (m : RawMarket)
deriving DecidableEq

/-- Environment for one `get_market_info` call: the fetch outcome and
the `get_ticker_price` result (total in the source — it falls back to a
constant 138.0). -/
structure MIEnv where
  fetch : Fetch
  ticker : ℚ
deriving DecidableEq

/-- The per-trader `_market_cache` dict. -/
abbrev Cache := List (String × MarketEntry)

/-- Python dict lookup `cache[symbol]` / `symbol in cache`. -/
def cacheFind (c : Cache) (s : String) : Option MarketEntry :=
  match c with
  | [] => none
  | (k, v) :: t => if k = s then some v else cacheFind t s

/-- Python dict assignment `cache[symbol] = e`. -/
def cacheInsert (c : Cache) (s : String) (e : MarketEntry) : Cache :=
  match c with
  | [] => [(s, e)]
  | (k, v) :: t => if k = s then (s, e) :: t else (k, v) :: cacheInsert t s e

/-- The entry built from a found market (lines 125-141): the ticker
price is substituted when `lastPrice` is missing or "0", and the step
size defaults to "0.01". -/
def mkEntry (m : RawMarket) (ticker : ℚ) : MarketEntry :=
  { symbol := m.symbol
    lastPrice :=
      match m.lastPrice with
      | none => ticker
      | some p => if p = 0 then ticker else p
    baseIncrement := m.stepSize.getD (1 / 100) }

/-- The fallback entry stored when no market was found or the fetch
raised (lines 143-163). -/
def fallbackEntry (symbol : String) (ticker : ℚ) : MarketEntry :=
  ⟨symbol, ticker, 1 / 100⟩

/-- `BackpackTrader.get_market_info` (lines 92-163): reuse a cached
entry (refreshing a zero price in place), or fetch; on a successful
fetch store the built entry, and on a failed or empty fetch store the
fallback entry.  Returns the entry and the updated cache. -/
def get_market_info (symbol : String) (cache : Cache) (env : MIEnv) : MarketEntry × Cache :=
  match cacheFind cache symbol with
  | some ce =>
    if ce.lastPrice = 0 then
      let ce2 := { ce with lastPrice := env.ticker }
      (ce2, cacheInsert cache symbol ce2)
    else (ce, cache)
  | none =>
    match env.fetch with
    | .found m =>
      let e := mkEntry m env.ticker
      (e, cacheInsert cache symbol e)
    | _ =>
      let e := fallbackEntry symbol env.ticker
      (e, cacheInsert cache symbol e)

/-- The two legs of a pair. -/
inductive Side
  | short
  | long
deriving DecidableEq

/-- Observable events of one `worker_pair` cycle, in program order. -/
inductive Ev
  | deposit (a : Side) (ok : Bool)
  | sleepEv (d : ℚ)
  | openPos (a : Side) (ok : Bool)
  | checkPos (a : Side) (r : Bool)
  | closePos (a : Side) (ok : Bool)
  | sweepEv (a : Side) (ok : Bool)
  | restart
deriving DecidableEq

/-- Whether an event is a position-existence poll (`has_position`
call). -/
def isPosCheck : Ev → Bool
  | .checkPos _ _ => true
  | _ => false

/-- Environment for one `SubAccount.sweep` call. -/
structure SweepEnv where
  balance : ℚ
  w : ℕ → WRes

/-- Environment for one `worker_pair` cycle.  `shortPosQ`/`longPosQ`
are the successive results of the `api/v1/position` queries on each
sub-account, consumed in order by every `has_position` call and by
`close_position`'s sizing query. -/
structure CycleEnv where
  depositShortOk : Bool
  depositLongOk : Bool
  shortOpen : OpenEnv
  longOpen : OpenEnv
  shortPosQ : ℕ → Option (List Pos)
  longPosQ : ℕ → Option (List Pos)
  shortCloseOrd : ℕ → Bool
  longCloseOrd : ℕ → Bool
  shortSweep : SweepEnv
  longSweep : SweepEnv
  u : ℕ → ℚ

/-- Result of one cycle: its events in order, and whether the cycle hit
the fast-fail `continue` (restarting at the deposits). -/
structure CycleOut where
  evs : List Ev
  restarted : Bool
deriving DecidableEq

/-- The `checkPos` events of the first `k` monitoring polls. -/
def pollEvents (obs : ℕ → Bool × Bool) : ℕ → List Ev
  | 0 => []
  | k + 1 => pollEvents obs k ++ [.checkPos .short (obs k).1, .checkPos .long (obs k).2]

/-- One iteration of the `while True` loop of `worker_pair`
(lines 518-655, exception-free path): the two deposits with randomized
delays, both `open_position` calls, the fast-fail branch
(lines 566-572) when neither leg opened, and otherwise the pre-monitor
delay and visibility checks, the fuel-bounded monitoring loop, the
survivor-closing checks, and the final sweeps with their delays.
`n` is `retry_attempts`, `ci` is `check_interval`; the maximum
monitoring time is the source's hardcoded `3600 * 24`. -/
def workerCycle (symbol : String) (lev : ℚ) (n : ℕ) (minD maxD ci : ℚ) (fuel : ℕ)
    (env : CycleEnv) : CycleOut :=
  let sOpen := open_position lev n minD maxD env.shortOpen
  let lOpen := open_position lev n minD maxD env.longOpen
  let evs0 : List Ev :=
    [.deposit .short env.depositShortOk, .sleepEv (uniform minD maxD (env.u 0)),
     .deposit .long env.depositLongOk, .sleepEv (uniform minD maxD (env.u 1)),
     .openPos .short sOpen.ok, .openPos .long lOpen.ok]
  if (sOpen.ok || lOpen.ok) = false then
    let sw1 := sweep env.shortSweep.balance env.shortSweep.w
    let sw2 := sweep env.longSweep.balance env.longSweep.w
    ⟨evs0 ++ [.sweepEv .short sw1.ok, .sweepEv .long sw2.ok, .sleepEv 3, .restart], true⟩
  else
    -- the `if short_position_opened or long_position_opened:` guard at
    -- line 578 is necessarily true on this branch
    let d3 := uniform minD maxD (env.u 2)
    let sVis := if sOpen.ok then has_position (env.shortPosQ 0) symbol else false
    let lVis := if lOpen.ok then has_position (env.longPosQ 0) symbol else false
    let cs0 : ℕ := if sOpen.ok then 1 else 0
    let cl0 : ℕ := if lOpen.ok then 1 else 0
    let visEvs :=
      (if sOpen.ok then [Ev.checkPos .short sVis] else []) ++
        (if lOpen.ok then [Ev.checkPos .long lVis] else [])
    let obs : ℕ → Bool × Bool := fun i =>
      (has_position (env.shortPosQ (cs0 + i)) symbol,
       has_position (env.longPosQ (cl0 + i)) symbol)
    let polls := ((monitorGo sOpen.ok lOpen.ok obs ci (3600 * 24) fuel 0).map Prod.snd).getD fuel
    let monEvs := pollEvents obs polls
    let cs1 := cs0 + polls
    let cl1 := cl0 + polls
    let sPart :=
      if sOpen.ok then
        let h := has_position (env.shortPosQ cs1) symbol
        if h then
          let cr := close_position false symbol env.shortPosQ (cs1 + 1) env.shortCloseOrd
          ([Ev.checkPos Side.short h, Ev.closePos Side.short cr.ok], cs1 + 1 + cr.qUsed)
        else ([Ev.checkPos Side.short h], cs1 + 1)
      else (([] : List Ev), cs1)
    let lPart :=
      if lOpen.ok then
        let h := has_position (env.longPosQ cl1) symbol
        if h then
          let cr := close_position true symbol env.longPosQ (cl1 + 1) env.longCloseOrd
          ([Ev.checkPos Side.long h, Ev.closePos Side.long cr.ok], cl1 + 1 + cr.qUsed)
        else ([Ev.checkPos Side.long h], cl1 + 1)
      else (([] : List Ev), cl1)
    let sw1 := sweep env.shortSweep.balance env.shortSweep.w
    let sw2 := sweep env.longSweep.balance env.longSweep.w
    ⟨evs0 ++ [.sleepEv d3] ++ visEvs ++ monEvs ++ sPart.1 ++ lPart.1 ++
       [.sleepEv (uniform minD maxD (env.u 3)),
        .sweepEv .short sw1.ok, .sweepEv .long sw2.ok,
        .sleepEv (uniform minD maxD (env.u 4))], false⟩

/-- The all-failing order environment: margin available, prices sane,
but every `execute_order` call raises.  (Sample `u = 1/2` for every
delay.) -/
def failAttempt : AttemptEnv :=
  ⟨10, false, 138, 138, 1 / 100, 10, false, 1 / 2⟩

/-- `open_position` environment in which every order attempt fails. -/
def failOpenEnv : OpenEnv :=
  ⟨fun _ _ => failAttempt, fun _ => 1 / 2⟩

/-- A cycle environment in which every order attempt of both legs
fails (positions queries fail too, balances are empty). -/
def failCycleEnv : CycleEnv :=
  { depositShortOk := true
    depositLongOk := true
    shortOpen := failOpenEnv
    longOpen := failOpenEnv
    shortPosQ := fun _ => none
    longPosQ := fun _ => none
    shortCloseOrd := fun _ => true
    longCloseOrd := fun _ => true
    shortSweep := ⟨0, fun _ => .ok⟩
    longSweep := ⟨0, fun _ => .ok⟩
    u := fun _ => 1 / 2 }


/-- A uniform draw with `minD ≤ maxD` and a unit sample lies in the
requested interval. -/
lemma uniform_mem (a b u : ℚ) (hab : a ≤ b) (h0 : 0 ≤ u) (h1 : u ≤ 1) :
    a ≤ uniform a b u ∧ uniform a b u ≤ b := by
  unfold uniform
  constructor <;> nlinarith

/-- Every delay slept by `execute_full_margin_order` is a uniform draw
from `[minD, maxD]`. -/
lemma efmoGo_delays_mem (lev minD maxD : ℚ) (envs : ℕ → AttemptEnv)
    (hab : minD ≤ maxD) (hu : ∀ j, 0 ≤ (envs j).u ∧ (envs j).u ≤ 1) :
    ∀ rem i, ∀ d ∈ (efmoGo lev minD maxD envs rem i).delays, minD ≤ d ∧ d ≤ maxD := by
  intro rem
  induction rem with
  | zero => intro i d hd; simp [efmoGo] at hd
  | succ rem ih =>
    intro i d hd
    simp only [efmoGo] at hd
    split_ifs at hd <;>
      first
        | exact absurd hd (List.not_mem_nil d)
        | exact ih _ d hd
        | (obtain rfl | hd2 := List.mem_cons.mp hd
           · exact uniform_mem _ _ _ hab (hu i).1 (hu i).2
           · exact ih _ d hd2)

/-- Each attempt of `execute_full_margin_order` places at most two
orders. -/
lemma efmoGo_orders_len (lev minD maxD : ℚ) (envs : ℕ → AttemptEnv) :
    ∀ rem i, (efmoGo lev minD maxD envs rem i).orders.length ≤ 2 * rem := by
  intro rem
  induction rem with
  | zero => intro i; simp [efmoGo]
  | succ rem ih =>
    intro i
    simp only [efmoGo]
    split_ifs <;> simp only [List.length_cons, List.length_nil] <;>
      first
        | omega
        | (have hih := ih (i + 1); omega)

/-- `open_position` returning false means every outer attempt was made
and each failed. -/
lemma openGo_false (lev : ℚ) (n : ℕ) (minD maxD : ℚ) (env : OpenEnv) :
    ∀ rem i, (openGo lev n minD maxD env rem i).ok = false →
      (openGo lev n minD maxD env rem i).attempts.length = rem ∧
        ∀ t ∈ (openGo lev n minD maxD env rem i).attempts, t.ok = false := by
  intro rem
  induction rem with
  | zero => intro i _; simp [openGo]
  | succ rem ih =>
    intro i h
    simp only [openGo] at h ⊢
    by_cases ht : (efmo lev n minD maxD (env.inner i)).ok = true
    · rw [if_pos ht] at h
      simp at h
    · rw [if_neg ht] at h ⊢
      simp only [List.length_cons, List.mem_cons]
      have hr := ih (i + 1) h
      refine ⟨by omega, ?_⟩
      rintro t (rfl | hm)
      · exact Bool.not_eq_true _ ▸ (by simpa using ht)
      · exact hr.2 t hm

/-- Order-call bound for the outer loop. -/
lemma openGo_orders_len (lev : ℚ) (n : ℕ) (minD maxD : ℚ) (env : OpenEnv) :
    ∀ rem i, totalOrders (openGo lev n minD maxD env rem i) ≤ rem * (2 * n) := by
  intro rem
  induction rem with
  | zero => intro i; simp [openGo, totalOrders]
  | succ rem ih =>
    intro i
    simp only [openGo]
    have h1 := efmoGo_orders_len lev minD maxD (env.inner i) n 0
    have hx : (rem + 1) * (2 * n) = rem * (2 * n) + 2 * n := by ring
    by_cases ht : (efmo lev n minD maxD (env.inner i)).ok = true
    · rw [if_pos ht]
      simp only [totalOrders, List.map_cons, List.map_nil, List.sum_cons, List.sum_nil, efmo]
      omega
    · rw [if_neg ht]
      have h2 := ih (i + 1)
      simp only [totalOrders] at h2
      simp only [totalOrders, List.map_cons, List.sum_cons, efmo]
      omega

/-- Delay bound for the outer loop. -/
lemma openGo_delays_mem (lev : ℚ) (n : ℕ) (minD maxD : ℚ) (env : OpenEnv)
    (hab : minD ≤ maxD)
    (hu : ∀ a j, 0 ≤ (env.inner a j).u ∧ (env.inner a j).u ≤ 1)
    (huo : ∀ a, 0 ≤ env.uouter a ∧ env.uouter a ≤ 1) :
    ∀ rem i, ∀ d ∈ (openGo lev n minD maxD env rem i).delays, minD ≤ d ∧ d ≤ maxD := by
  intro rem
  induction rem with
  | zero => intro i d hd; simp [openGo] at hd
  | succ rem ih =>
    intro i d hd
    simp only [openGo] at hd
    split_ifs at hd with ht h0
    · exact efmoGo_delays_mem lev minD maxD (env.inner i) hab (hu i) n 0 d hd
    · rcases List.mem_append.mp hd with hd1 | hd1
      · exact efmoGo_delays_mem lev minD maxD (env.inner i) hab (hu i) n 0 d hd1
      · obtain rfl | hd2 := List.mem_cons.mp hd1
        · exact uniform_mem _ _ _ hab (huo i).1 (huo i).2
        · exact ih _ d hd2
    · rcases List.mem_append.mp hd with hd1 | hd1
      · exact efmoGo_delays_mem lev minD maxD (env.inner i) hab (hu i) n 0 d hd1
      · exact ih _ d hd1

/-- Counterexample to claim C1 as stated: in the all-failing
environment, `open_position` with the configured `retry_attempts = 8`
returns false only after 128 underlying `execute_order` calls
(8 outer attempts × 8 inner attempts × 2 sizing strategies), far more
than the claimed bound of `retryAttempts = 8` order-placement attempts
in total. -/
theorem C1_counterexample_order_calls_exceed_retryAttempts :
    (open_position 1 8 1 1 failOpenEnv).ok = false ∧
      totalOrders (open_position 1 8 1 1 failOpenEnv) = 128 ∧
      ¬ totalOrders (open_position 1 8 1 1 failOpenEnv) ≤ 8 := by
  refine ⟨by decide, by decide, by decide⟩

/-- Claim C1, amended: `SubAccount.open_position` makes at most
`retryAttempts` calls to `execute_full_margin_order`, each of which
attempts order placement at most `retryAttempts` times with at most two
`execute_order` calls per attempt — so at most `2·retryAttempts²`
underlying order calls in total before returning false — and, when
`minDelay ≤ maxDelay` and the uniform samples are unit samples, every
inter-attempt delay drawn is within `[minDelay, maxDelay]`. -/
theorem C1_amended_order_calls_bounded_and_delays_in_range
    (lev : ℚ) (n : ℕ) (minD maxD : ℚ) (env : OpenEnv)
    (hab : minD ≤ maxD)
    (hu : ∀ a j, 0 ≤ (env.inner a j).u ∧ (env.inner a j).u ≤ 1)
    (huo : ∀ a, 0 ≤ env.uouter a ∧ env.uouter a ≤ 1) :
    totalOrders (open_position lev n minD maxD env) ≤ 2 * n * n ∧
      ∀ d ∈ (open_position lev n minD maxD env).delays, minD ≤ d ∧ d ≤ maxD := by
  constructor
  · have h1 := openGo_orders_len lev n minD maxD env n 0
    have hx : n * (2 * n) = 2 * n * n := by ring
    unfold open_position
    omega
  · exact openGo_delays_mem lev n minD maxD env hab hu huo n 0

/-- Witness for the amended C1 at a concrete environment. -/
theorem C1_amended_witness :
    totalOrders (open_position 1 2 1 2 failOpenEnv) ≤ 2 * 2 * 2 ∧
      ∀ d ∈ (open_position 1 2 1 2 failOpenEnv).delays, 1 ≤ d ∧ d ≤ 2 :=
  C1_amended_order_calls_bounded_and_delays_in_range 1 2 1 2 failOpenEnv (by norm_num)
    (fun _ _ => ⟨by norm_num [failOpenEnv, failAttempt], by norm_num [failOpenEnv, failAttempt]⟩)
    (fun _ => ⟨by norm_num [failOpenEnv], by norm_num [failOpenEnv]⟩)

/-- Claim C2: `SubAccount.open_position` is total — every remote failure
is caught and absorbed into the boolean result, which the embedding
reflects by being a total function — and it returns false only after
all `n = retry_attempts` attempts were made and every one of them
failed. -/
theorem C2_open_position_exhausts_attempts (lev : ℚ) (n : ℕ) (minD maxD : ℚ)
    (env : OpenEnv) (h : (open_position lev n minD maxD env).ok = false) :
    (open_position lev n minD maxD env).attempts.length = n ∧
      ∀ t ∈ (open_position lev n minD maxD env).attempts, t.ok = false :=
  openGo_false lev n minD maxD env n 0 h

/-- Witness for C2 at a concrete all-failing environment. -/
theorem C2_witness :
    (open_position 1 2 1 1 failOpenEnv).attempts.length = 2 ∧
      ∀ t ∈ (open_position 1 2 1 1 failOpenEnv).attempts, t.ok = false :=
  C2_open_position_exhausts_attempts 1 2 1 1 failOpenEnv (by decide)

/-- Before the deadline, a both-present poll continues the loop with the
next poll index. -/
lemma monitorGo_step_present (sOp lOp : Bool) (obs : ℕ → Bool × Bool) (ci maxT : ℚ)
    (fuel i : ℕ) (hp : obs i = (true, true)) (hlt : (i : ℚ) * ci < maxT) :
    monitorGo sOp lOp obs ci maxT (fuel + 1) i = monitorGo sOp lOp obs ci maxT fuel (i + 1) := by
  simp only [monitorGo, hp]
  rw [if_neg (not_le.mpr hlt)]
  simp

/-- At or past the deadline the loop exits with no liquidation flag. -/
lemma monitorGo_exit_timeout (sOp lOp : Bool) (obs : ℕ → Bool × Bool) (ci maxT : ℚ)
    (fuel i : ℕ) (h : maxT ≤ (i : ℚ) * ci) :
    monitorGo sOp lOp obs ci maxT (fuel + 1) i = some (false, i) := by
  simp only [monitorGo]
  rw [if_pos h]

/-- Before the deadline, a poll observing an opened leg absent exits at
once with the liquidation flag. -/
lemma monitorGo_exit_detect (sOp lOp : Bool) (obs : ℕ → Bool × Bool) (ci maxT : ℚ)
    (fuel i : ℕ) (hlt : (i : ℚ) * ci < maxT)
    (hdet : (sOp = true ∧ (obs i).1 = false) ∨ (lOp = true ∧ (obs i).2 = false)) :
    monitorGo sOp lOp obs ci maxT (fuel + 1) i = some (true, i + 1) := by
  simp only [monitorGo]
  rw [if_neg (not_le.mpr hlt)]
  by_cases h1 : sOp = true ∧ (obs i).1 = false
  · rw [if_pos h1]
  · rw [if_neg h1]
    rcases hdet with h | h
    · exact absurd h h1
    · rw [if_pos h]

/-- With every poll in the all-present environment, the loop runs to the
first poll index at or past the deadline and exits by timeout there. -/
lemma monitorGo_timeout_reached (sOp lOp : Bool) (obs : ℕ → Bool × Bool) (ci maxT : ℚ)
    (hobs : ∀ j, obs j = (true, true)) :
    ∀ (fuel i : ℕ), maxT ≤ ((i : ℚ) + (fuel : ℚ)) * ci →
      ∃ n, monitorGo sOp lOp obs ci maxT (fuel + 1) i = some (false, n) ∧
        i ≤ n ∧ maxT ≤ (n : ℚ) * ci ∧ ∀ j : ℕ, i ≤ j → j < n → (j : ℚ) * ci < maxT := by
  intro fuel
  induction fuel with
  | zero =>
    intro i h
    push_cast at h
    rw [add_zero] at h
    exact ⟨i, monitorGo_exit_timeout sOp lOp obs ci maxT 0 i h, le_refl i, h,
      fun j h1 h2 => absurd h1 (by omega)⟩
  | succ fuel ih =>
    intro i h
    by_cases hgi : maxT ≤ (i : ℚ) * ci
    · exact ⟨i, monitorGo_exit_timeout sOp lOp obs ci maxT (fuel + 1) i hgi, le_refl i, hgi,
        fun j h1 h2 => absurd h1 (by omega)⟩
    · push_neg at hgi
      rw [monitorGo_step_present sOp lOp obs ci maxT (fuel + 1) i (hobs i) hgi]
      have h2 : maxT ≤ (((i + 1 : ℕ) : ℚ) + (fuel : ℚ)) * ci := by
        push_cast at h ⊢
        have : ((i : ℚ) + 1) + (fuel : ℚ) = (i : ℚ) + ((fuel : ℚ) + 1) := by ring
        rw [this]
        exact h
      obtain ⟨n, heq, hin, hmn, hj⟩ := ih (i + 1) h2
      refine ⟨n, heq, by omega, hmn, ?_⟩
      intro j hj1 hj2
      rcases Nat.eq_or_lt_of_le hj1 with rfl | hj3
      · exact hgi
      · exact hj j (by omega) hj2

/-- Running the loop across `d` both-present pre-deadline polls reaches
poll index `i + d` with `d` fewer fuel. -/
lemma monitorGo_advance (sOp lOp : Bool) (obs : ℕ → Bool × Bool) (ci maxT : ℚ) :
    ∀ (d fuel i : ℕ), (∀ j : ℕ, i ≤ j → j < i + d → obs j = (true, true) ∧ (j : ℚ) * ci < maxT) →
      monitorGo sOp lOp obs ci maxT (fuel + d) i = monitorGo sOp lOp obs ci maxT fuel (i + d) := by
  intro d
  induction d with
  | zero => intro fuel i _; rfl
  | succ d ih =>
    intro fuel i h
    have h0 := h i (le_refl i) (by omega)
    have hshape : fuel + (d + 1) = (fuel + d) + 1 := by omega
    rw [hshape, monitorGo_step_present sOp lOp obs ci maxT (fuel + d) i h0.1 h0.2,
      ih fuel (i + 1) (fun j h1 h2 => h j (by omega) (by omega))]
    congr 1
    omega

/-- Claim C3: the monitoring loop (i) terminates by timeout within the
configured maximum duration even when both legs remain present on every
poll — every poll happens strictly before `maxT` elapsed, and the loop
exits at the first poll boundary at or past `maxT` (so strictly before
`maxT + ci` elapsed) with `⌈maxT/ci⌉ + 1` fuel — and (ii) exits on the
very next poll at which a leg that was opened is observed absent, with
the liquidation flag set. -/
theorem C3_monitoring_terminates_and_detects (sOp lOp : Bool) (obs : ℕ → Bool × Bool)
    (ci maxT : ℚ) (hci : 0 < ci) (hmax : 0 ≤ maxT) :
    ((∀ j, obs j = (true, true)) →
      ∃ n, monitorLoop sOp lOp obs ci maxT (Nat.ceil (maxT / ci) + 1) = some (false, n) ∧
        maxT ≤ (n : ℚ) * ci ∧ (n : ℚ) * ci < maxT + ci ∧
        ∀ j : ℕ, j < n → (j : ℚ) * ci < maxT) ∧
    (∀ (i fuel : ℕ), (∀ j : ℕ, j < i → obs j = (true, true)) → (i : ℚ) * ci < maxT →
      ((sOp = true ∧ (obs i).1 = false) ∨ (lOp = true ∧ (obs i).2 = false)) →
      i + 1 ≤ fuel →
      monitorLoop sOp lOp obs ci maxT fuel = some (true, i + 1)) := by
  constructor
  · intro hobs
    have hstart : maxT ≤ (((0 : ℕ) : ℚ) + ((Nat.ceil (maxT / ci) : ℕ) : ℚ)) * ci := by
      push_cast
      rw [zero_add]
      have h1 : maxT / ci ≤ (Nat.ceil (maxT / ci) : ℚ) := Nat.le_ceil _
      calc maxT = maxT / ci * ci := by field_simp
        _ ≤ (Nat.ceil (maxT / ci) : ℚ) * ci := by
            exact mul_le_mul_of_nonneg_right h1 (le_of_lt hci)
    obtain ⟨n, heq, _, hmn, hj⟩ :=
      monitorGo_timeout_reached sOp lOp obs ci maxT hobs (Nat.ceil (maxT / ci)) 0 hstart
    refine ⟨n, heq, hmn, ?_, fun j hjn => hj j (Nat.zero_le j) hjn⟩
    rcases Nat.eq_zero_or_pos n with rfl | hn
    · push_cast
      nlinarith
    · have hlast := hj (n - 1) (Nat.zero_le _) (by omega)
      have hcast : ((n : ℚ)) = ((n - 1 : ℕ) : ℚ) + 1 := by
        push_cast [Nat.cast_sub hn]
        ring
      rw [hcast, add_mul, one_mul]
      linarith
  · intro i fuel hprev hlt hdet hfuel
    unfold monitorLoop
    have hsplit : fuel = (fuel - (i + 1) + 1) + i := by omega
    rw [hsplit]
    have hadv := monitorGo_advance sOp lOp obs ci maxT i (fuel - (i + 1) + 1) 0
      (fun j h1 h2 => ⟨hprev j (by omega), by
        have : (j : ℚ) ≤ (i : ℚ) := by exact_mod_cast Nat.le_of_lt_succ (by omega)
        calc (j : ℚ) * ci ≤ (i : ℚ) * ci := mul_le_mul_of_nonneg_right this (le_of_lt hci)
          _ < maxT := hlt⟩)
    rw [Nat.add_comm (fuel - (i + 1) + 1) i] at hadv ⊢
    rw [hadv]
    simp only [Nat.zero_add]
    exact monitorGo_exit_detect sOp lOp obs ci maxT (fuel - (i + 1)) i hlt hdet

/-- Witness for C3: with a 10-second interval, polls 0-2 both present
and the short leg absent at poll 3, the loop exits at poll 3 with the
liquidation flag. -/
theorem C3_witness :
    monitorLoop true true (fun i => (decide (i < 3), true)) 10 86400 4 = some (true, 3 + 1) :=
  (C3_monitoring_terminates_and_detects true true (fun i => (decide (i < 3), true)) 10 86400
      (by norm_num) (by norm_num)).2 3 4
    (fun j hj => by rw [decide_eq_true hj])
    (by norm_num)
    (Or.inl ⟨rfl, by rfl⟩)
    (by omega)

/-- Rounding to `n` decimal places is idempotent. -/
lemma pyRound_idem (q : ℚ) (n : ℕ) : pyRound (pyRound q n) n = pyRound q n := by
  unfold pyRound
  rw [div_mul_cancel₀]
  · rw [round_intCast]
  · positivity

/-- Each sweep attempt issues at most two withdrawal requests. -/
lemma sweepLoop_len (w : ℕ → WRes) :
    ∀ (a : ℕ) (qty : ℚ) (j : ℕ), (sweepLoop w a qty j).requests.length ≤ 2 * a := by
  intro a
  induction a with
  | zero => intro qty j; simp [sweepLoop]
  | succ a ih =>
    intro qty j
    simp only [sweepLoop]
    rcases w j with _ | _ | _ <;> simp only []
    · simp only [List.length_cons, List.length_nil]
      omega
    · split_ifs
      · simp only [List.length_cons, List.length_nil]
        omega
      · rcases w (j + 1) with _ | _ | _ <;> simp only []
        · simp only [List.length_cons, List.length_nil]
          omega
        · simp only [List.length_cons]
          have := ih (qty * (1 / 2)) (j + 2)
          omega
        · simp only [List.length_cons]
          have := ih (qty * (1 / 2)) (j + 2)
          omega
    · simp only [List.length_cons]
      have := ih qty (j + 1)
      omega

/-- Claim C4: `sweep` is idempotent at the dust threshold — whenever the
balance read at entry is at most 0.1, it returns success without issuing
any withdrawal request, so two successive calls against an unchanged
(≤ dust) balance issue no withdrawal at all. -/
theorem C4_sweep_dust_idempotent (b : ℚ) (w w2 : ℕ → WRes) (h : b ≤ 1 / 10) :
    sweep b w = ⟨true, []⟩ ∧ sweep b w2 = ⟨true, []⟩ := by
  constructor <;> (unfold sweep; rw [if_pos h])

/-- Witness for C4 at a concrete dust balance. -/
theorem C4_witness :
    sweep (1 / 20) (fun _ => .ok) = ⟨true, []⟩ ∧
      sweep (1 / 20) (fun _ => .err) = ⟨true, []⟩ :=
  C4_sweep_dust_idempotent (1 / 20) (fun _ => .ok) (fun _ => .err) (by norm_num)

/-- Claim C5: a sweep issues at most 6 withdrawal requests in total
(3 attempts × at most one halving retry each, a bounded number of
halvings), and in the scenario where the full-amount withdrawal fails
with the "Insufficient collateral" class and the halved amount succeeds,
`sweep` returns success having requested exactly the full rounded
balance and then half of it. -/
theorem C5_sweep_halving_bounded_and_scenario (b : ℚ) (w : ℕ → WRes)
    (hb : ¬ b ≤ 1 / 10) (h0 : w 0 = .insufficient) (h1 : w 1 = .ok)
    (hq : ¬ pyRound b 6 * (1 / 2) < 1 / 10) :
    (∀ (b2 : ℚ) (w2 : ℕ → WRes), (sweep b2 w2).requests.length ≤ 6) ∧
      sweep b w = ⟨true, [pyRound b 6, pyRound (pyRound b 6 * (1 / 2)) 6]⟩ := by
  constructor
  · intro b2 w2
    unfold sweep
    split_ifs
    · simp
    · exact sweepLoop_len w2 3 (pyRound b2 6) 0
  · unfold sweep
    rw [if_neg hb]
    simp only [sweepLoop, h0, h1]
    rw [if_neg hq, pyRound_idem]

/-- Witness for C5: balance 10, first withdrawal rejected for locked
collateral, the halved withdrawal succeeds. -/
theorem C5_witness :
    (∀ (b2 : ℚ) (w2 : ℕ → WRes), (sweep b2 w2).requests.length ≤ 6) ∧
      sweep 10 (fun k => if k = 0 then WRes.insufficient else .ok) =
        ⟨true, [pyRound 10 6, pyRound (pyRound 10 6 * (1 / 2)) 6]⟩ :=
  C5_sweep_halving_bounded_and_scenario 10 (fun k => if k = 0 then WRes.insufficient else .ok)
    (by norm_num) (by rfl) (by rfl) (by decide)

/-- A position whose symbol is an accepted variant makes `has_position`
true. -/
lemma hasPosition_of_mem (symbol : String) (ps : List Pos) (p : Pos)
    (hp : p ∈ ps) (hv : p.symbol ∈ symbolVariants symbol) :
    has_position (some ps) symbol = true := by
  simp only [has_position, List.any_eq_true]
  exact ⟨p, hp, by simpa using hv⟩

/-- Claim C6: for every positions list returned by a successful
position query, `has_position` returns true whenever the list contains
a position whose symbol equals the requested symbol under any accepted
separator variant (the symbol itself, underscores replaced by hyphens,
or hyphens replaced by underscores). -/
theorem C6_has_position_variant_match (symbol : String) (ps : List Pos) (p : Pos)
    (hp : p ∈ ps) (hv : p.symbol ∈ symbolVariants symbol) :
    has_position (some ps) symbol = true :=
  hasPosition_of_mem symbol ps p hp hv

/-- Witness for C6: `SOL-USDC` matches a `SOL_USDC` request. -/
theorem C6_witness :
    has_position (some [⟨"SOL-USDC", some "3.5"⟩]) "SOL_USDC" = true :=
  C6_has_position_variant_match "SOL_USDC" [⟨"SOL-USDC", some "3.5"⟩]
    ⟨"SOL-USDC", some "3.5"⟩ (by decide) (by decide)

/-- Positions with other symbols contribute nothing to the sizing
loop. -/
lemma closeLoop_skip (side symbol : String) (orderOk : ℕ → Bool) :
    ∀ (ps1 rest : List Pos) (j : ℕ), (∀ p ∈ ps1, p.symbol ≠ symbol) →
      closeLoop side symbol orderOk (ps1 ++ rest) j = closeLoop side symbol orderOk rest j := by
  intro ps1
  induction ps1 with
  | nil => intro rest j _; rfl
  | cons p t ih =>
    intro rest j h
    simp only [List.cons_append, closeLoop]
    rw [if_neg (h p (List.mem_cons_self p t))]
    exact ih rest j (fun p2 hp2 => h p2 (List.mem_cons_of_mem p hp2))

/-- When no position matches the symbol exactly, the sizing loop issues
no order and reports failure. -/
lemma closeLoop_no_exact (side symbol : String) (orderOk : ℕ → Bool)
    (ps : List Pos) (j : ℕ) (h : ∀ p ∈ ps, p.symbol ≠ symbol) :
    closeLoop side symbol orderOk ps j = (false, [], j) := by
  have := closeLoop_skip side symbol orderOk ps [] j h
  rw [List.append_nil] at this
  rw [this]
  rfl

/-- Claim C7: `close_position` is a no-op success when `has_position`
reports no position for the symbol — it returns true without issuing
any order — and otherwise it queries the current open size and, for the
first position matching the symbol exactly with a parseable size whose
reduce-only order is accepted, issues exactly one reduce-only market
order for exactly that size (`abs(float(netQuantity))`).  (The source's
fixed-size fallback, acknowledged by the specification as an explicit
approximation, runs only when no such sized order succeeded.) -/
theorem C7_close_position_noop_and_exact_size (isLong : Bool) (symbol : String)
    (q : ℕ → Option (List Pos)) (k : ℕ) (orderOk : ℕ → Bool) :
    (has_position (q k) symbol = false →
      close_position isLong symbol q k orderOk = ⟨true, [], 1⟩) ∧
    (∀ (ps1 ps2 : List Pos) (p : Pos) (s : String) (v : ℚ),
      has_position (q k) symbol = true →
      q (k + 1) = some (ps1 ++ p :: ps2) →
      (∀ p2 ∈ ps1, p2.symbol ≠ symbol) →
      p.symbol = symbol → p.netQuantity = some s → s ≠ "" → ratOfString? s = some v →
      orderOk 0 = true →
      close_position isLong symbol q k orderOk =
        ⟨true, [⟨if isLong then "Ask" else "Bid", true, |v|⟩], 2⟩) := by
  constructor
  · intro h
    unfold close_position
    rw [if_pos h]
  · intro ps1 ps2 p s v hhp hq1 hskip hsym hnq hne hparse hord
    unfold close_position
    rw [hhp]
    simp only [Bool.true_eq_false, if_false, hq1]
    rw [closeLoop_skip _ symbol orderOk ps1 (p :: ps2) 0 hskip]
    simp only [closeLoop, if_pos hsym, hnq, Option.getD_some]
    rw [if_neg hne, hparse]
    simp only [hord, if_true]

/-- Witness for C7: a single exactly-matching position of size "3.5" is
closed with one reduce-only order of quantity 3.5. -/
theorem C7_witness :
    close_position false "SOL_USDC" (fun _ => some [⟨"SOL_USDC", some "3.5"⟩]) 0
        (fun _ => true) =
      ⟨true, [⟨if false then "Ask" else "Bid", true, |(7 : ℚ) / 2|⟩], 2⟩ :=
  (C7_close_position_noop_and_exact_size false "SOL_USDC"
      (fun _ => some [⟨"SOL_USDC", some "3.5"⟩]) 0 (fun _ => true)).2
    [] [] ⟨"SOL_USDC", some "3.5"⟩ "3.5" (7 / 2)
    (by decide) (by rfl) (by simp) (by rfl) (by rfl) (by decide) (by decide) (by rfl)

/-- Claim C10: the sizing step of `close_position` matches positions
only by exact symbol-string equality, so when every position in the
sizing query matches the requested symbol only under a separator
variant — even though `has_position` reported the position present —
the exact-size reduce-only order is bypassed and the fixed-size
fallback order with quantity 3.58 is issued instead. -/
theorem C10_close_position_variant_bypasses_sized_order (isLong : Bool) (symbol : String)
    (q : ℕ → Option (List Pos)) (k : ℕ) (orderOk : ℕ → Bool)
    (ps0 ps1 : List Pos) (p : Pos)
    (hq0 : q k = some ps0) (hp : p ∈ ps0) (hv : p.symbol ∈ symbolVariants symbol)
    (hq1 : q (k + 1) = some ps1) (hne : ∀ p2 ∈ ps1, p2.symbol ≠ symbol) :
    close_position isLong symbol q k orderOk =
      ⟨orderOk 0, [⟨if isLong then "Ask" else "Bid", true, 358 / 100⟩], 2⟩ := by
  unfold close_position
  rw [hq0, hasPosition_of_mem symbol ps0 p hp hv]
  simp only [Bool.true_eq_false, if_false, hq1]
  rw [closeLoop_no_exact _ symbol orderOk ps1 0 hne]
  simp

/-- Witness for C10: a `SOL-USDC` position with a known size, requested
as `SOL_USDC`: `has_position` is true yet the fallback 3.58 order is
issued. -/
theorem C10_witness :
    close_position false "SOL_USDC" (fun _ => some [⟨"SOL-USDC", some "3.5"⟩]) 0
        (fun _ => true) =
      ⟨(fun (_ : ℕ) => true) 0, [⟨if false then "Ask" else "Bid", true, 358 / 100⟩], 2⟩ :=
  C10_close_position_variant_bypasses_sized_order false "SOL_USDC"
    (fun _ => some [⟨"SOL-USDC", some "3.5"⟩]) 0 (fun _ => true)
    [⟨"SOL-USDC", some "3.5"⟩] [⟨"SOL-USDC", some "3.5"⟩] ⟨"SOL-USDC", some "3.5"⟩
    (by rfl) (by decide) (by decide) (by rfl) (by decide)

/-- Inserting into the cache makes the entry retrievable. -/
lemma cacheFind_insert (c : Cache) (s : String) (e : MarketEntry) :
    cacheFind (cacheInsert c s e) s = some e := by
  induction c with
  | nil => simp [cacheInsert, cacheFind]
  | cons kv t ih =>
    obtain ⟨k, v⟩ := kv
    simp only [cacheInsert]
    by_cases hk : k = s
    · rw [if_pos hk]
      simp [cacheFind]
    · rw [if_neg hk]
      simp only [cacheFind]
      rw [if_neg hk]
      exact ih

/-- Counterexample to claim C9 as stated: a `get_market_info` call whose
market fetch raises (no successful fetch at all) still stores an entry —
the fallback entry — in the per-trader market cache. -/
theorem C9_counterexample_cache_stores_on_failed_fetch :
    cacheFind (get_market_info "SOL_USDC" [] ⟨.raised, 138⟩).2 "SOL_USDC" =
      some ⟨"SOL_USDC", 138, 1 / 100⟩ ∧
    (get_market_info "SOL_USDC" [] ⟨.raised, 138⟩).2 ≠ [] := by
  constructor <;> decide

/-- Claim C9, amended: on every call for a symbol not yet cached,
`get_market_info` stores an entry for that symbol — the fetched market
data (with defaulted step size) after a successful fetch, and the
fallback entry (ticker price, step 0.01) after a failed or empty fetch —
so the cache holds the returned entry in either case, not only after
successful fetches. -/
theorem C9_amended_cache_entry_after_every_fetch (symbol : String) (cache : Cache)
    (env : MIEnv) (h : cacheFind cache symbol = none) :
    cacheFind (get_market_info symbol cache env).2 symbol =
      some (get_market_info symbol cache env).1 ∧
    ((∀ m, env.fetch ≠ .found m) →
      (get_market_info symbol cache env).1 = fallbackEntry symbol env.ticker) := by
  unfold get_market_info
  rw [h]
  cases henv : env.fetch with
  | raised =>
    exact ⟨cacheFind_insert cache symbol _, fun _ => rfl⟩
  | notFound =>
    exact ⟨cacheFind_insert cache symbol _, fun _ => rfl⟩
  | found m =>
    exact ⟨cacheFind_insert cache symbol _, fun hno => absurd rfl (hno m)⟩

/-- Witness for the amended C9 at a concrete failed fetch. -/
theorem C9_amended_witness :
    cacheFind (get_market_info "ETH_USDC" [] ⟨.raised, 7⟩).2 "ETH_USDC" =
      some (get_market_info "ETH_USDC" [] ⟨.raised, 7⟩).1 ∧
    ((∀ m, (⟨.raised, 7⟩ : MIEnv).fetch ≠ .found m) →
      (get_market_info "ETH_USDC" [] ⟨.raised, 7⟩).1 = fallbackEntry "ETH_USDC" 7) :=
  C9_amended_cache_entry_after_every_fetch "ETH_USDC" [] ⟨.raised, 7⟩ (by rfl)

/-- Claim C8: in a cycle in which neither leg's `open_position`
succeeds, the worker performs the deposits and delays, then sweeps both
sub-accounts, waits, and restarts the cycle — its event list holds no
position poll at all (no `has_position` call, so the Monitoring loop is
never entered) and the cycle reports the fast-fail restart. -/
theorem C8_worker_fastfail_no_monitoring (symbol : String) (lev : ℚ) (n : ℕ)
    (minD maxD ci : ℚ) (fuel : ℕ) (env : CycleEnv)
    (hs : (open_position lev n minD maxD env.shortOpen).ok = false)
    (hl : (open_position lev n minD maxD env.longOpen).ok = false) :
    workerCycle symbol lev n minD maxD ci fuel env =
      ⟨[.deposit .short env.depositShortOk, .sleepEv (uniform minD maxD (env.u 0)),
        .deposit .long env.depositLongOk, .sleepEv (uniform minD maxD (env.u 1)),
        .openPos .short false, .openPos .long false,
        .sweepEv .short (sweep env.shortSweep.balance env.shortSweep.w).ok,
        .sweepEv .long (sweep env.longSweep.balance env.longSweep.w).ok,
        .sleepEv 3, .restart], true⟩ ∧
      (workerCycle symbol lev n minD maxD ci fuel env).evs.countP isPosCheck = 0 := by
  have heq : workerCycle symbol lev n minD maxD ci fuel env =
      ⟨[.deposit .short env.depositShortOk, .sleepEv (uniform minD maxD (env.u 0)),
        .deposit .long env.depositLongOk, .sleepEv (uniform minD maxD (env.u 1)),
        .openPos .short false, .openPos .long false,
        .sweepEv .short (sweep env.shortSweep.balance env.shortSweep.w).ok,
        .sweepEv .long (sweep env.longSweep.balance env.longSweep.w).ok,
        .sleepEv 3, .restart], true⟩ := by
    simp [workerCycle, hs, hl]
  refine ⟨heq, ?_⟩
  rw [heq]
  simp [List.countP_cons, List.countP_nil, isPosCheck]

/-- Witness for C8: both legs fail every order attempt, and the cycle
sweeps both accounts and restarts with zero position polls. -/
theorem C8_witness :
    workerCycle "SOL_USDC" 1 1 1 1 10 5 failCycleEnv =
      ⟨[.deposit .short failCycleEnv.depositShortOk, .sleepEv (uniform 1 1 (failCycleEnv.u 0)),
        .deposit .long failCycleEnv.depositLongOk, .sleepEv (uniform 1 1 (failCycleEnv.u 1)),
        .openPos .short false, .openPos .long false,
        .sweepEv .short (sweep failCycleEnv.shortSweep.balance failCycleEnv.shortSweep.w).ok,
        .sweepEv .long (sweep failCycleEnv.longSweep.balance failCycleEnv.longSweep.w).ok,
        .sleepEv 3, .restart], true⟩ ∧
      (workerCycle "SOL_USDC" 1 1 1 1 10 5 failCycleEnv).evs.countP isPosCheck = 0 :=
  C8_worker_fastfail_no_monitoring "SOL_USDC" 1 1 1 1 10 5 failCycleEnv (by decide) (by decide)
